import Mathlib

/-!
Verification of the GRAPH-CP graphviz MCP server (`src/server.py`).

Shallow embedding conventions:
* Python strings are modelled as `List Char`; the ASCII core of the regex
  classes `\s` and `\w` is used (every string appearing in the claims is
  ASCII).
* Filesystem paths are modelled as lists of components (`List (List Char)`),
  representing an absolute path below the filesystem root.  `Path.resolve()`
  is modelled as lexical normalisation of `.` and `..` segments (a
  symlink-free filesystem).
* The process state (the module global `_output_directory`, the filesystem,
  and the behaviour of the external graphviz renderer) is an explicit
  `World` record threaded through the stateful operations; operating-system
  outcomes (mkdir permission, write permission, `os.access`) are oracle
  fields of the `World`.
* Python exceptions are modelled with `Except`; the exception classes of
  `server.py` (plus `ValueError`, used for dimension validation) become the
  constructors of `ServerError`.
-/

/-- The error taxonomy of `server.py`: `SecurityError`, `DOTSyntaxError`,
`FileOperationError` and Python's `ValueError` (used by `generate_png` for
dimension validation). -/
inductive ServerError where
  | securityError
  | dotSyntaxError
  | fileOperationError
  | valueError
deriving DecidableEq, Repr

/-- Decidable equality for `Except`, used to evaluate the embedded
operations on concrete inputs. -/
instance {ε α : Type} [DecidableEq ε] [DecidableEq α] : DecidableEq (Except ε α)
  | Except.ok x, Except.ok y =>
    if h : x = y then isTrue (by rw [h]) else isFalse (fun hx => h (Except.ok.inj hx))
  | Except.ok _, Except.error _ => isFalse (fun h => Except.noConfusion h)
  | Except.error _, Except.ok _ => isFalse (fun h => Except.noConfusion h)
  | Except.error e, Except.error f =>
    if h : e = f then isTrue (by rw [h]) else isFalse (fun hx => h (Except.error.inj hx))

/-- ASCII core of the regex class `\s` (Python `re`): space, tab, newline,
carriage return, vertical tab, form feed. -/
def isWsB (c : Char) : Bool :=
  c == ' ' || c == '\t' || c == '\n' || c == '\r' || c == '\x0b' || c == '\x0c'

/-- ASCII core of the regex class `\w`: letters, digits, underscore. -/
def isWordB (c : Char) : Bool := c.isAlphanum || c == '_'

/-- Case folding used for the `re.IGNORECASE` keyword comparisons. -/
def lowerC (c : Char) : Char := c.toLower

/-- Python `str.strip(chars)`: drop characters satisfying `p` from both ends. -/
def stripChars (p : Char → Bool) (s : List Char) : List Char :=
  ((s.dropWhile p).reverse.dropWhile p).reverse

/-- Python `str.strip()` with no argument: strip whitespace from both ends. -/
def pyStrip (s : List Char) : List Char := stripChars isWsB s

/-- Characters replaced by `_` in `sanitize_filename`
(the regex `[<>:"/\\|?*]` at `server.py:148`). -/
def reservedChar (c : Char) : Bool :=
  c == '<' || c == '>' || c == ':' || c == '"' || c == '/' ||
  c == '\\' || c == '|' || c == '?' || c == '*'

/-- Characters stripped from both ends by `filename.strip('. ')`
(`server.py:149`). -/
def dotOrSpace (c : Char) : Bool := c == '.' || c == ' '

/-- The fallback filename substituted for an empty result
(`server.py:151-152`). -/
def fallbackName : List Char := "output".data

/-- The function `sanitize_filename` (`server.py:138-154`): replace filesystem-reserved
characters by `_`, strip leading/trailing dots and spaces, and substitute
the fallback name when the result is empty. -/
def sanitize_filename (filename : List Char) : List Char :=
  let s1 := filename.map (fun c => if reservedChar c then '_' else c)
  let s2 := stripChars dotOrSpace s1
  if s2 = [] then fallbackName else s2

/-! ## The DOT shape regex

`DOT_GRAPH_PATTERN = re.compile(r'^\s*(strict\s+)?(graph|digraph)\s+\w*\s*\{.*\}\s*$',
re.DOTALL | re.IGNORECASE)` (`server.py:28`).  On the character classes all
three of `\s`, `\w` and the literals `\x7b`/`\x7d` are pairwise disjoint, so
the backtracking search of `re` is equivalent to the deterministic
maximal-munch matcher below (each `\s+`/`\w*`/`\s*` consumes a maximal run);
`.*\}\s*$` under `re.DOTALL` succeeds exactly when the last
non-whitespace character after the opening brace is a closing brace. -/

/-- The literal `strict` of the pattern (compared case-insensitively). -/
def strictPat : List Char := "strict".data

/-- The literal `graph` of the pattern (compared case-insensitively). -/
def graphPat : List Char := "graph".data

/-- The literal `digraph` of the pattern (compared case-insensitively). -/
def digraphPat : List Char := "digraph".data

/-- Strip a (lower-case) literal from the front of `s`, comparing
case-insensitively; returns the rest on success.  Models a case-insensitive
literal of `DOT_GRAPH_PATTERN`. -/
def stripCaseFold : List Char → List Char → Option (List Char)
  | [], s => some s
  | _ :: _, [] => none
  | p :: ps, c :: cs => if lowerC c = p then stripCaseFold ps cs else none

/-- The regex tail `.*\}\s*$` under `re.DOTALL`, applied to the text after the opening
brace: the last non-whitespace character exists and is `\x7d`. -/
def lastNonWsIsClose (t : List Char) : Bool :=
  match t.reverse.dropWhile isWsB with
  | [] => false
  | c :: _ => c == '}'

/-- The regex tail `\{.*\}\s*$`: an opening brace followed by a body whose last
non-whitespace character is a closing brace. -/
def matchBody : List Char → Bool
  | [] => false
  | c :: t => c == '{' && lastNonWsIsClose t

/-- The regex tail `\s+\w*\s*\{.*\}\s*$`: at least one whitespace character, an optional
identifier, optional whitespace, then the brace-delimited body. -/
def afterKw : List Char → Bool
  | [] => false
  | c :: rest =>
    isWsB c && matchBody (((rest.dropWhile isWsB).dropWhile isWordB).dropWhile isWsB)

/-- The group `(strict\s+)?`: an optional case-insensitive `strict` keyword followed by
at least one whitespace character.  (If `strict` matches but no whitespace
follows, the regex engine falls back to the empty alternative.) -/
def afterStrictOpt (s : List Char) : List Char :=
  match stripCaseFold strictPat s with
  | some (c :: r) => if isWsB c then (c :: r).dropWhile isWsB else s
  | some [] => s
  | none => s

/-- The alternation `(graph|digraph)\s+\w*\s*\{.*\}\s*$` (the two alternatives are
distinguished by their first character, so no backtracking is possible). -/
def kwMatch (s : List Char) : Bool :=
  match stripCaseFold graphPat s with
  | some r => afterKw r
  | none =>
    match stripCaseFold digraphPat s with
    | some r => afterKw r
    | none => false

/-- The test `DOT_GRAPH_PATTERN.match(s)` as a Boolean. -/
def matchShape (s : List Char) : Bool := kwMatch (afterStrictOpt (s.dropWhile isWsB))

/-- The function `validate_dot_content` (`server.py:88-113`).  `renderOk` is the verdict
of the external renderer invoked by `Source(dot_content).pipe()` (the
delegated semantic check); every rejection raises `DOTSyntaxError`. -/
def validate_dot_content (renderOk : List Char → Bool) (dot_content : List Char) :
    Except ServerError Unit :=
  if pyStrip dot_content = [] then Except.error ServerError.dotSyntaxError
  else if matchShape (pyStrip dot_content) = false then Except.error ServerError.dotSyntaxError
  else if ¬ (dot_content.count '{' = dot_content.count '}') then
    Except.error ServerError.dotSyntaxError
  else if renderOk dot_content then Except.ok () else Except.error ServerError.dotSyntaxError

/-- The external renderer verdict that accepts everything (used to state
properties of the structural pre-checks alone). -/
def alwaysOk : List Char → Bool := fun _ => true

/-! ## Paths and `validate_path_security` -/

/-- A filesystem path: the list of components below the filesystem root
(an absolute path). -/
abbrev FsPath := List (List Char)

/-- One step of lexical path normalisation: `.` is dropped, `..` removes the
last component (a no-op at the root, as in POSIX), anything else is
appended. -/
def stepComp (acc : FsPath) (c : List Char) : FsPath :=
  if c = ['.'] then acc
  else if c = ['.', '.'] then acc.dropLast
  else acc ++ [c]

/-- Python `Path(p).resolve()` on a symlink-free filesystem: lexical normalisation
of `.` and `..` segments. -/
def resolveComps (p : FsPath) : FsPath := p.foldl stepComp []

/-- The character class of `DOT_BASIC_VALIDATION = re.compile(r'^[^<>|*?]*$')`
(`server.py:29`). -/
def forbiddenPathChar (c : Char) : Bool :=
  c == '<' || c == '>' || c == '|' || c == '*' || c == '?'

/-- The check `DOT_BASIC_VALIDATION.match(str(path))`: no component of the path
contains a forbidden character (the separator `/` itself is not
forbidden). -/
def noForbiddenPath (p : FsPath) : Bool :=
  p.all (fun comp => comp.all (fun c => !(forbiddenPathChar c)))

/-- Python `path.relative_to(base)` succeeds exactly when the components of `base`
are a prefix of the components of `path` (equality included). -/
def startsWithPath : FsPath → FsPath → Bool
  | [], _ => true
  | _ :: _, [] => false
  | a :: as, b :: bs => a = b && startsWithPath as bs

/-- The function `validate_path_security` (`server.py:48-85`): resolve the candidate,
reject resolved paths containing a forbidden character, and, when a base
directory is given, require the resolved base to be a prefix of the resolved
candidate; every rejection raises `SecurityError`.  (The loop over
components starting with `.` only emits a log warning and is not modelled.) -/
def validate_path_security (file_path : FsPath) (base_directory : Option FsPath) :
    Except ServerError FsPath :=
  let path := resolveComps file_path
  if noForbiddenPath path then
    match base_directory with
    | some b =>
      if startsWithPath (resolveComps b) path then Except.ok path
      else Except.error ServerError.securityError
    | none => Except.ok path
  else Except.error ServerError.securityError

/-! ## The process state and the stateful operations -/

/-- The process-wide state and the oracles for the operating system and the
external renderer:
* `outputDirectory` — the module global `_output_directory`;
* `dirs` — the set of existing directories; `files` — file contents, as an
  association list where the first binding wins (so prepending overwrites);
* `tmpdir` — `tempfile.gettempdir()`;
* `mkdirOk p` — whether `p.mkdir(parents=True)` would succeed for an absent
  directory; `accessW p` — `os.access(p, os.W_OK)`; `writeOk p` — whether
  `open(p, 'w')` succeeds;
* `renderOk d` — whether `Source(d).pipe()` succeeds (the renderer's
  validation verdict); `renderFileOk d` — whether `Source(d).render(...)`
  succeeds; `renderBytes d` — the bytes the renderer then writes. -/
structure World where
  outputDirectory : Option FsPath := none
  dirs : List FsPath := []
  files : List (FsPath × List Char) := []
  tmpdir : FsPath := ["tmp".data]
  mkdirOk : FsPath → Bool := fun _ => true
  accessW : FsPath → Bool := fun _ => true
  writeOk : FsPath → Bool := fun _ => true
  renderOk : List Char → Bool := fun _ => true
  renderFileOk : List Char → Bool := fun _ => true
  renderBytes : List Char → List Char := fun _ => []

/-- All prefixes of a path: the directories brought into existence by
`mkdir(parents=True)`. -/
def prefixesOf : FsPath → List FsPath
  | [] => [[]]
  | c :: cs => [] :: (prefixesOf cs).map (c :: ·)

/-- The default output root `<platform-temp-dir>/mcp_graphviz_output`
(`server.py:129`). -/
def defaultOutputDir (w : World) : FsPath := w.tmpdir ++ ["mcp_graphviz_output".data]

/-- Reading back a file (first binding in `files` wins). -/
def readFile (w : World) (p : FsPath) : Option (List Char) :=
  (w.files.find? (fun e => e.1 == p)).map (fun e => e.2)

/-- The function `ensure_output_directory` (`server.py:116-135`): default the global to
`<tmp>/mcp_graphviz_output` when unset, then `mkdir(parents=True,
exist_ok=True)`; a creation failure raises `FileOperationError`.  (As in the
source, the global keeps its value even when the creation fails.) -/
def ensure_output_directory (w : World) : Except ServerError FsPath × World :=
  let dir := w.outputDirectory.getD (defaultOutputDir w)
  let w1 : World := { w with outputDirectory := some dir }
  if dir ∈ w1.dirs then (Except.ok dir, w1)
  else if w1.mkdirOk dir then
    (Except.ok dir, { w1 with dirs := prefixesOf dir ++ w1.dirs })
  else (Except.error ServerError.fileOperationError, w1)

/-- Success message of `set_output_location_file`. -/
def setDirMsg (p : FsPath) : List Char :=
  "Output directory successfully set to: ".data ++ (p.foldl (fun a c => a ++ '/' :: c) [])

/-- The function `set_output_location_file` (`server.py:157-191`): validate the path (no
base constraint), create the directory, check write permission — raising
`FileOperationError` when it is missing — and only then assign the module
global. -/
def set_output_location_file (w : World) (directory_path : FsPath) :
    Except ServerError (List Char) × World :=
  match validate_path_security directory_path none with
  | Except.error e => (Except.error e, w)
  | Except.ok vp =>
    if vp ∈ w.dirs then
      if w.accessW vp then (Except.ok (setDirMsg vp), { w with outputDirectory := some vp })
      else (Except.error ServerError.fileOperationError, w)
    else if w.mkdirOk vp then
      if w.accessW vp then
        (Except.ok (setDirMsg vp),
         { w with dirs := prefixesOf vp ++ w.dirs, outputDirectory := some vp })
      else (Except.error ServerError.fileOperationError,
            { w with dirs := prefixesOf vp ++ w.dirs })
    else (Except.error ServerError.fileOperationError, w)

/-! ## `generate_dot_file` and `generate_png` -/

/-- Python `str.endswith(suffix)`. -/
def listEndsWith (l suf : List Char) : Bool := List.isSuffixOf suf l

/-- The `.dot` extension appended by `generate_dot_file`. -/
def dotExt : List Char := ".dot".data

/-- The `.png` extension appended by `generate_png`. -/
def pngExt : List Char := ".png".data

/-- Rendering a path for the confirmation messages. -/
def pathToStr (p : FsPath) : List Char := p.foldl (fun a c => a ++ '/' :: c) []

/-- Success message of `generate_dot_file`. -/
def dotSuccessMsg (p : FsPath) : List Char :=
  "DOT file successfully created: ".data ++ pathToStr p

/-- Success message of `generate_png` (`server.py:312`), which reports the
requested — not the actual — dimensions. -/
def pngSuccessMsg (p : FsPath) (width height : Int) : List Char :=
  "PNG file successfully created: ".data ++ pathToStr p ++ " (".data ++
  (toString width).data ++ "x".data ++ (toString height).data ++ " target size)".data

/-- The error kind of a result, if any. -/
def errOf {α : Type} : Except ServerError α → Option ServerError
  | Except.error e => some e
  | Except.ok _ => none

/-- The cleaned filename: `sanitize_filename` followed by appending the
extension when it is not already the suffix (`server.py:217-219`,
`278-280`). -/
def joinedName (filename : List Char) (ext : List Char) : List Char :=
  let c1 := sanitize_filename filename
  if listEndsWith c1 ext then c1 else c1 ++ ext

/-- The function `generate_dot_file` (`server.py:194-239`): validate the DOT content,
ensure the output root, sanitize the name and append `.dot` if absent, join
with the output root, re-validate the joined path against the root, then
write the content verbatim (prepending to `files` overwrites for
`readFile`); a write failure raises `FileOperationError`.  The sanitized
name contains no path separator, so the join adds exactly one component. -/
def generate_dot_file (w : World) (dot_content : List Char) (filename : List Char) :
    Except ServerError (List Char) × World :=
  match validate_dot_content w.renderOk dot_content with
  | Except.error e => (Except.error e, w)
  | Except.ok _ =>
    match ensure_output_directory w with
    | (Except.error e, w1) => (Except.error e, w1)
    | (Except.ok outDir, w1) =>
      let path := outDir ++ [joinedName filename dotExt]
      match validate_path_security path (some outDir) with
      | Except.error e => (Except.error e, w1)
      | Except.ok _ =>
        if w1.writeOk path then
          (Except.ok (dotSuccessMsg path), { w1 with files := (path, dot_content) :: w1.files })
        else (Except.error ServerError.fileOperationError, w1)

/-- The dimension bounds of `generate_png` (`server.py:271-274`): both
dimensions positive and at most 10000. -/
def dimsOk (width height : Int) : Prop :=
  0 < width ∧ 0 < height ∧ width ≤ 10000 ∧ height ≤ 10000

instance (width height : Int) : Decidable (dimsOk width height) := by
  unfold dimsOk; infer_instance

/-- The DPI hint `max(72, min(300, min(width, height) / 5))`
(`server.py:291-292`).  The source computes it with floating-point division;
the value is bound but never passed to the renderer, which is exactly what
claim C9 is about, so the integer approximation is immaterial. -/
def derivedDpi (width height : Int) : Int := max 72 (min 300 (min width height / 5))

/-- The part of `generate_png` after the dimension checks
(`server.py:276-309`): ensure the output root, clean the name with the
`.png` extension, re-validate the joined path, then render; a renderer
failure (or a missing output file) raises `FileOperationError`.  After a
successful render the output file exists, so the post-render existence
check (`server.py:303-306`) passes.  Note that the requested dimensions do
not occur here: the derived DPI value is bound in `generate_pngCore` but
never passed to `source.render`. -/
def pngAfterDims (w : World) (dot_content : List Char) (filename : List Char) :
    Except ServerError FsPath × World :=
  match ensure_output_directory w with
  | (Except.error e, w1) => (Except.error e, w1)
  | (Except.ok outDir, w1) =>
    let path := outDir ++ [joinedName filename pngExt]
    match validate_path_security path (some outDir) with
    | Except.error e => (Except.error e, w1)
    | Except.ok _ =>
      if w1.renderFileOk dot_content then
        (Except.ok path,
         { w1 with files := (path, w1.renderBytes dot_content) :: w1.files })
      else (Except.error ServerError.fileOperationError, w1)

/-- The function `generate_png` up to the confirmation message (`server.py:242-318`):
validate the DOT content, validate the dimensions (a violation raises
`ValueError`), then proceed as in `pngAfterDims`; the DPI hint is computed
(`server.py:291-292`) but its value is dead.  Returns the path of the
created file. -/
def generate_pngCore (w : World) (dot_content : List Char) (filename : List Char)
    (width height : Int) : Except ServerError FsPath × World :=
  match validate_dot_content w.renderOk dot_content with
  | Except.error e => (Except.error e, w)
  | Except.ok _ =>
    if width ≤ 0 ∨ height ≤ 0 then (Except.error ServerError.valueError, w)
    else if 10000 < width ∨ 10000 < height then (Except.error ServerError.valueError, w)
    else
      let _dpi := derivedDpi width height
      pngAfterDims w dot_content filename

/-- The function `generate_png` proper: wraps the created path into the confirmation
message carrying the requested dimensions. -/
def generate_png (w : World) (dot_content : List Char) (filename : List Char)
    (width height : Int) : Except ServerError (List Char) × World :=
  let r := generate_pngCore w dot_content filename width height
  (r.1.map (fun p => pngSuccessMsg p width height), r.2)

/-- A world with everything at its defaults (empty filesystem, permissive
operating system, accepting renderer). -/
def w0 : World := {}

/-! ## C1: `validate_path_security` -/

/-- The `..` path component. -/
def parentC : List Char := "..".data

/-- A concrete root `/home/user` for the traversal examples. -/
def exRootC1 : FsPath := ["home".data, "user".data]

/-- A candidate whose raw text contains the forbidden character `<` inside a
component that is removed again by the following `..` segment. -/
def cexC1P : FsPath := ["r".data, "<b".data, "..".data, "f".data]

/-- The root for the counterexample: `/r`. -/
def cexC1R : FsPath := ["r".data]

/-- A world whose operating system refuses write access everywhere
(`os.access(..., os.W_OK)` is false), everything else permissive. -/
def wNoW : World := { accessW := fun _ => false }

/-- The malformed description used for the C10 witness. -/
def exNotAGraph : List Char := "not a graph".data

/-- A concrete filename argument. -/
def exT1 : List Char := "t1".data

/-- The well-formed description used by the C5/C9 witnesses. -/
def exGood : List Char := "digraph G \x7b a -> b; \x7d".data

/-! ## C3: the round trip of `generate_dot_file` -/

/-- The description of claim C3, exactly as written: no whitespace after the
`digraph` keyword. -/
def exC3Bad : List Char := "digraph\x7ba->b\x7d".data

/-- The minimally repaired description: one space after the keyword. -/
def exC3Good : List Char := "digraph \x7ba->b\x7d".data

/-- The resolved output path of the C3 call in the default world. -/
def c3Path : FsPath := ["tmp".data, "mcp_graphviz_output".data, "t1.dot".data]

/-! ## C2: the accepted outer shape

The claim paraphrases `DOT_GRAPH_PATTERN` as: optional `strict` keyword,
then `graph`/`digraph` case-insensitively, an optional identifier, then a
brace-delimited body spanning to end of input, with balanced brace counts.
`ClaimShapeDecomp` renders this paraphrase with whitespace separation
optional everywhere (the claim does not require any); `AmendShapeDecomp`
additionally demands at least one whitespace character after the (optional)
`strict` keyword and after the `graph`/`digraph` keyword, which is what the
regex (`\s+`) actually enforces. -/

/-- A run of whitespace characters. -/
def wsRun (l : List Char) : Prop := ∀ c ∈ l, isWsB c = true

/-- A run of identifier (`\w`) characters. -/
def wordRun (l : List Char) : Prop := ∀ c ∈ l, isWordB c = true

/-- Whether `l` spells `pat` up to case. -/
def lowersTo (l pat : List Char) : Prop := l.map lowerC = pat

/-- Optional `strict` keyword as the claim words it: absent, or the keyword
followed by (possibly empty) whitespace. -/
def StrictPartClaim (sp : List Char) : Prop :=
  sp = [] ∨ ∃ st ws0, sp = st ++ ws0 ∧ lowersTo st strictPat ∧ wsRun ws0

/-- Optional `strict` keyword as the regex enforces it: absent, or the
keyword followed by at least one whitespace character. -/
def StrictPartAmend (sp : List Char) : Prop :=
  sp = [] ∨ ∃ st ws0, sp = st ++ ws0 ∧ lowersTo st strictPat ∧ ws0 ≠ [] ∧ wsRun ws0

/-- The outer shape exactly as the claim words it, on a trimmed string:
optional `strict`, the `graph`/`digraph` keyword (case-insensitive), an
optional identifier, and the brace-delimited body extending to the end of
the input, with whitespace separation optional everywhere. -/
def ClaimShapeDecomp (s : List Char) : Prop :=
  ∃ sp kw ws1 idp ws2 body,
    s = sp ++ kw ++ ws1 ++ idp ++ ws2 ++ ('{' :: (body ++ ['}']))
    ∧ StrictPartClaim sp
    ∧ (lowersTo kw graphPat ∨ lowersTo kw digraphPat)
    ∧ wsRun ws1 ∧ wordRun idp ∧ wsRun ws2

/-- The outer shape the regex actually accepts, on a trimmed string: as the
claim's shape, but with at least one whitespace character required after
the `strict` keyword and after the `graph`/`digraph` keyword. -/
def AmendShapeDecomp (s : List Char) : Prop :=
  ∃ sp kw ws1 idp ws2 body,
    s = sp ++ kw ++ ws1 ++ idp ++ ws2 ++ ('{' :: (body ++ ['}']))
    ∧ StrictPartAmend sp
    ∧ (lowersTo kw graphPat ∨ lowersTo kw digraphPat)
    ∧ ws1 ≠ [] ∧ wsRun ws1 ∧ wordRun idp ∧ wsRun ws2

/-- The unbalanced example of the claim. -/
def exUnbalanced : List Char := "digraph \x7b ".data

/-- The keyword-glued-to-brace input that separates the claim's shape from
the regex: it fits the claim's shape (empty identifier, no separating
whitespace) but the regex rejects it. -/
def exNoWsKw : List Char := "digraph\x7ba\x7d".data

/-! ## Lemmas, claim theorems, witnesses and counterexamples -/

example : sanitize_filename [] = fallbackName := by decide
example : sanitize_filename ("...".data) = fallbackName := by decide
example : sanitize_filename ("a<b".data) = "a_b".data := by decide
example : sanitize_filename (" .x. ".data) = "x".data := by decide

example : validate_dot_content alwaysOk [] = Except.error ServerError.dotSyntaxError := by decide
example : validate_dot_content alwaysOk ("not a graph".data) =
    Except.error ServerError.dotSyntaxError := by decide
example : validate_dot_content alwaysOk ("digraph \x7b ".data) =
    Except.error ServerError.dotSyntaxError := by decide
example : validate_dot_content alwaysOk ("digraph G \x7b a -> b; \x7d".data) =
    Except.ok () := by decide
example : validate_dot_content alwaysOk ("digraph\x7ba->b\x7d".data) =
    Except.error ServerError.dotSyntaxError := by decide
example : validate_dot_content alwaysOk ("digraph \x7ba->b\x7d".data) = Except.ok () := by decide
example : validate_dot_content alwaysOk ("  strict GRAPH g_1 \x7b a -- b \x7d  ".data) =
    Except.ok () := by decide
example : validate_dot_content alwaysOk ("strictgraph \x7ba\x7d".data) =
    Except.error ServerError.dotSyntaxError := by decide
example : validate_dot_content alwaysOk ("graph \x7b \x7d \x7d".data) =
    Except.error ServerError.dotSyntaxError := by decide

example :
    validate_path_security ["home".data, "user".data, "..".data, "..".data,
      "etc".data, "passwd".data] (some ["home".data, "user".data]) =
    Except.error ServerError.securityError := by decide
example :
    validate_path_security ["home".data, "user".data, "sub".data, "file".data]
      (some ["home".data, "user".data]) =
    Except.ok ["home".data, "user".data, "sub".data, "file".data] := by decide

example :
    (generate_dot_file w0 ("digraph \x7ba->b\x7d".data) ("t1".data)).1 =
    Except.ok (dotSuccessMsg ["tmp".data, "mcp_graphviz_output".data, "t1.dot".data]) := by
  decide

/-! ## Lemmas about `dropWhile` and `stripChars` -/

lemma dropWhile_head_not (p : Char → Bool) :
    ∀ (l : List Char) (c : Char) (t : List Char), List.dropWhile p l = c :: t → p c = false := by
  intro l
  induction l with
  | nil => intro c t h; simp [List.dropWhile] at h
  | cons a as ih =>
    intro c t h
    by_cases hp : p a = true
    · exact ih c t (by simpa [List.dropWhile, hp] using h)
    · simp [List.dropWhile, hp] at h
      simp [← h.1, Bool.eq_false_iff.mpr hp]

lemma dropWhile_cons_neg (p : Char → Bool) (c : Char) (l : List Char) (h : p c = false) :
    List.dropWhile p (c :: l) = c :: l := by
  simp [List.dropWhile, h]

lemma dropWhile_decomp (p : Char → Bool) (l : List Char) :
    ∃ t, l = t ++ List.dropWhile p l ∧ ∀ c ∈ t, p c = true := by
  induction l with
  | nil => exact ⟨[], by simp [List.dropWhile]⟩
  | cons a as ih =>
    by_cases hp : p a = true
    · obtain ⟨t, ht, hall⟩ := ih
      refine ⟨a :: t, ?_, ?_⟩
      · simpa [List.dropWhile, hp] using congrArg (a :: ·) ht
      · intro c hc
        rcases List.mem_cons.mp hc with h | h
        · rw [h]; exact hp
        · exact hall c h
    · exact ⟨[], by simp [List.dropWhile, Bool.eq_false_iff.mpr hp]⟩

lemma dropWhile_all_append (p : Char → Bool) (a b : List Char) (h : ∀ c ∈ a, p c = true) :
    List.dropWhile p (a ++ b) = List.dropWhile p b := by
  induction a with
  | nil => simp
  | cons x xs ih =>
    have hx : p x = true := h x (List.mem_cons_self x xs)
    simp only [List.cons_append, List.dropWhile, hx]
    exact ih (fun c hc => h c (List.mem_cons_of_mem x hc))

lemma dropWhile_mem (p : Char → Bool) (l : List Char) (c : Char)
    (h : c ∈ List.dropWhile p l) : c ∈ l := by
  obtain ⟨t, ht, _⟩ := dropWhile_decomp p l
  rw [ht]
  exact List.mem_append_right t h

lemma stripChars_eq (p : Char → Bool) (l : List Char) :
    stripChars p l = ((l.dropWhile p).reverse.dropWhile p).reverse := rfl

lemma stripChars_head (p : Char → Bool) (l : List Char) (c : Char) (t : List Char)
    (h : stripChars p l = c :: t) : p c = false := by
  rw [stripChars_eq] at h
  obtain ⟨t2, ht2, _⟩ := dropWhile_decomp p (l.dropWhile p).reverse
  have hd1 : l.dropWhile p = c :: (t ++ t2.reverse) := by
    have := congrArg List.reverse ht2
    rw [List.reverse_reverse, List.reverse_append, h] at this
    simpa using this
  exact dropWhile_head_not p l c _ hd1

lemma stripChars_last (p : Char → Bool) (l : List Char) (c : Char) (t : List Char)
    (h : stripChars p l = t ++ [c]) : p c = false := by
  rw [stripChars_eq] at h
  have h2 : (l.dropWhile p).reverse.dropWhile p = c :: t.reverse := by
    have := congrArg List.reverse h
    rw [List.reverse_reverse, List.reverse_append] at this
    simpa using this
  exact dropWhile_head_not p _ c _ h2

lemma stripChars_mem (p : Char → Bool) (l : List Char) (c : Char)
    (h : c ∈ stripChars p l) : c ∈ l := by
  rw [stripChars_eq] at h
  rw [List.mem_reverse] at h
  have h2 := dropWhile_mem p _ c h
  rw [List.mem_reverse] at h2
  exact dropWhile_mem p _ c h2

lemma stripChars_idem (p : Char → Bool) (l : List Char) :
    stripChars p (stripChars p l) = stripChars p l := by
  rcases hr : stripChars p l with _ | ⟨c, t⟩
  · rfl
  · have hhead : p c = false := stripChars_head p l c t hr
    rcases List.eq_nil_or_concat (c :: t) with h | ⟨t', c', hct⟩
    · exact absurd h (List.cons_ne_nil c t)
    · rw [List.concat_eq_append] at hct
      have hlast : p c' = false := stripChars_last p l c' t' (hr.trans hct)
      rw [stripChars_eq, dropWhile_cons_neg p c t hhead, hct, List.reverse_append]
      simp only [List.reverse_cons, List.reverse_nil, List.nil_append, List.singleton_append]
      rw [dropWhile_cons_neg p c' t'.reverse hlast]
      simp [← hct]

lemma map_id_of (f : Char → Char) (l : List Char) (h : ∀ c ∈ l, f c = c) :
    l.map f = l := by
  induction l with
  | nil => rfl
  | cons a as ih =>
    rw [List.map_cons, h a (List.mem_cons_self a as),
      ih (fun c hc => h c (List.mem_cons_of_mem a hc))]

/-! ## C4: `sanitize_filename` is total, idempotent, never empty -/

/-- The character substituted for reserved characters. -/
lemma reserved_image (c : Char) :
    reservedChar (if reservedChar c then '_' else c) = false := by
  cases hb : reservedChar c
  · simp [hb]
  · show reservedChar '_' = false
    decide

/-- C4.  `sanitize_filename` is a total function of the input string (it is a
Lean `def`, hence never fails); it is idempotent; its result is never empty;
and both `sanitize_filename ""` and `sanitize_filename "..."` yield the
fixed fallback name `"output"`. -/
theorem C4_sanitize_filename_idempotent_total :
    (∀ x : List Char, sanitize_filename (sanitize_filename x) = sanitize_filename x)
    ∧ (∀ x : List Char, sanitize_filename x ≠ [])
    ∧ sanitize_filename [] = fallbackName
    ∧ sanitize_filename ("...".data) = fallbackName := by
  refine ⟨?_, ?_, by decide, by decide⟩
  · intro x
    unfold sanitize_filename
    set s1 := x.map (fun c => if reservedChar c then '_' else c) with hs1
    rcases hs2 : stripChars dotOrSpace s1 with _ | ⟨c, t⟩
    · simp [hs2]
      decide
    · have hres : ∀ d ∈ (c :: t : List Char), reservedChar d = false := by
        intro d hd
        have hd1 : d ∈ s1 := stripChars_mem dotOrSpace s1 d (hs2 ▸ hd)
        rw [hs1] at hd1
        obtain ⟨e, _, he⟩ := List.mem_map.mp hd1
        rw [← he]
        exact reserved_image e
      have hmap : (c :: t).map (fun c => if reservedChar c then '_' else c) = c :: t := by
        refine map_id_of _ _ (fun d hd => ?_)
        simp [hres d hd]
      have hstrip : stripChars dotOrSpace (c :: t) = c :: t := by
        have := stripChars_idem dotOrSpace s1
        rw [hs2] at this
        exact this
      simp only [hs2, List.cons_ne_nil, if_false, hmap, hstrip]
  · intro x
    simp only [sanitize_filename]
    rcases hs2 : stripChars dotOrSpace (x.map (fun c => if reservedChar c then '_' else c)) with
      _ | ⟨c, t⟩
    · decide
    · simp

/-- C1, counterexample.  The claim reads `validate_path_security(P, R)`
succeeds iff the canonical form of P is R or a descendant of R *and P
contains none of the forbidden characters*.  For `P = /r/<b/../f` and
`R = /r` the call succeeds (the code checks the *canonical* string
`/r/f`, which is clean) although P itself contains the forbidden
character `<`, so the claimed equivalence is false at this input. -/
theorem C1_counterexample :
    ¬ (validate_path_security cexC1P (some cexC1R) = Except.ok (resolveComps cexC1P) ↔
       (startsWithPath (resolveComps cexC1R) (resolveComps cexC1P) = true ∧
        noForbiddenPath cexC1P = true)) := by
  decide

/-- C1, amended.  For every candidate path P and root R,
`validate_path_security(P, R)` succeeds and returns the canonical form of P
iff the canonical form of P is the canonical form of R or a descendant of it
and the *canonical form of* P contains none of the forbidden characters
`< > | * ?`; in particular, for the root `/home/user` it fails with
`SecurityError` for `P = R/../../etc/passwd` and succeeds for
`P = R/sub/file`. -/
theorem C1_amended_validate_path_security :
    (∀ P R : FsPath,
      validate_path_security P (some R) = Except.ok (resolveComps P) ↔
        (startsWithPath (resolveComps R) (resolveComps P) = true ∧
         noForbiddenPath (resolveComps P) = true))
    ∧ validate_path_security
        (exRootC1 ++ [parentC, parentC, "etc".data, "passwd".data]) (some exRootC1) =
      Except.error ServerError.securityError
    ∧ validate_path_security (exRootC1 ++ ["sub".data, "file".data]) (some exRootC1) =
      Except.ok (exRootC1 ++ ["sub".data, "file".data]) := by
  refine ⟨?_, by decide, by decide⟩
  intro P R
  simp only [validate_path_security]
  cases hf : noForbiddenPath (resolveComps P)
  · simp [hf]
  · cases hs : startsWithPath (resolveComps R) (resolveComps P)
    · simp [hf, hs]
    · simp [hf, hs]

/-! ## Error-kind lemmas for the building blocks -/

/-- Every rejection of `validate_dot_content` is a `DOTSyntaxError`. -/
lemma validate_dot_content_error (renderOk : List Char → Bool) (d : List Char)
    (e : ServerError) (h : validate_dot_content renderOk d = Except.error e) :
    e = ServerError.dotSyntaxError := by
  simp only [validate_dot_content] at h
  split at h
  · exact (Except.error.inj h).symm
  · split at h
    · exact (Except.error.inj h).symm
    · split at h
      · exact (Except.error.inj h).symm
      · split at h
        · cases h
        · exact (Except.error.inj h).symm

/-- Every rejection of `validate_path_security` is a `SecurityError`. -/
lemma validate_path_security_error (p : FsPath) (b : Option FsPath) (e : ServerError)
    (h : validate_path_security p b = Except.error e) : e = ServerError.securityError := by
  simp only [validate_path_security] at h
  split at h
  · cases b with
    | none => cases h
    | some bb =>
      simp only at h
      split at h
      · cases h
      · exact (Except.error.inj h).symm
  · exact (Except.error.inj h).symm

/-- On success `validate_path_security` returns the resolved candidate. -/
lemma validate_path_security_ok (p : FsPath) (b : Option FsPath) (v : FsPath)
    (h : validate_path_security p b = Except.ok v) : v = resolveComps p := by
  simp only [validate_path_security] at h
  split at h
  · cases b with
    | none => exact (Except.ok.inj h).symm
    | some bb =>
      simp only at h
      split at h
      · exact (Except.ok.inj h).symm
      · cases h
  · cases h

/-- Every failure of `ensure_output_directory` is a `FileOperationError`. -/
lemma ensure_output_directory_error (w : World) (e : ServerError)
    (h : (ensure_output_directory w).1 = Except.error e) : e = ServerError.fileOperationError := by
  simp only [ensure_output_directory] at h
  split at h
  · cases h
  · split at h
    · cases h
    · exact (Except.error.inj h).symm

/-! ## C6 and C7: `set_output_location_file` -/

/-- C6.  `set_output_location_file` is atomic with respect to the output
root: whenever it returns an error, the process-wide `_output_directory`
observed afterwards equals its value before the call, and it is reassigned
(to the validated path) only when validation, creation and the writability
check all succeed. -/
theorem C6_set_output_location_file_atomic (w : World) (p : FsPath) :
    (∀ e, (set_output_location_file w p).1 = Except.error e →
      (set_output_location_file w p).2.outputDirectory = w.outputDirectory)
    ∧ (∀ m, (set_output_location_file w p).1 = Except.ok m →
      (set_output_location_file w p).2.outputDirectory = some (resolveComps p)) := by
  rcases hv : validate_path_security p none with e2 | vp
  · constructor
    · intro e _; simp [set_output_location_file, hv]
    · intro m hm; simp [set_output_location_file, hv] at hm
  · have hvp : vp = resolveComps p := validate_path_security_ok p none vp hv
    subst hvp
    by_cases hmem : resolveComps p ∈ w.dirs
    · by_cases hacc : w.accessW (resolveComps p) = true
      · constructor
        · intro e he; simp [set_output_location_file, hv, hmem, hacc] at he
        · intro m _; simp [set_output_location_file, hv, hmem, hacc]
      · constructor
        · intro e _
          simp [set_output_location_file, hv, hmem, Bool.eq_false_iff.mpr hacc]
        · intro m hm
          simp [set_output_location_file, hv, hmem, Bool.eq_false_iff.mpr hacc] at hm
    · by_cases hmk : w.mkdirOk (resolveComps p) = true
      · by_cases hacc : w.accessW (resolveComps p) = true
        · constructor
          · intro e he; simp [set_output_location_file, hv, hmem, hmk, hacc] at he
          · intro m _; simp [set_output_location_file, hv, hmem, hmk, hacc]
        · constructor
          · intro e _
            simp [set_output_location_file, hv, hmem, hmk, Bool.eq_false_iff.mpr hacc]
          · intro m hm
            simp [set_output_location_file, hv, hmem, hmk, Bool.eq_false_iff.mpr hacc] at hm
      · constructor
        · intro e _
          simp [set_output_location_file, hv, hmem, Bool.eq_false_iff.mpr hmk]
        · intro m hm
          simp [set_output_location_file, hv, hmem, Bool.eq_false_iff.mpr hmk] at hm

/-- C6, witness: on a concrete failing call (write permission denied) the
output root is unchanged. -/
theorem C6_witness :
    (set_output_location_file wNoW ["newdir".data]).1 =
      Except.error ServerError.fileOperationError
    ∧ (set_output_location_file wNoW ["newdir".data]).2.outputDirectory =
      wNoW.outputDirectory :=
  ⟨by decide,
   (C6_set_output_location_file_atomic wNoW ["newdir".data]).1
     ServerError.fileOperationError (by decide)⟩

/-- C7, counterexample.  The claim says a write-permission denial on an
explicitly requested directory signals `SecurityError`; the code
(`server.py:179-180`) raises `FileOperationError` instead.  Concretely, for
the path `/newdir` in a world where the directory can be created but
`os.access` denies write permission, the call returns `FileOperationError`,
not `SecurityError`. -/
theorem C7_counterexample :
    (set_output_location_file wNoW ["newdir".data]).1 =
      Except.error ServerError.fileOperationError
    ∧ (set_output_location_file wNoW ["newdir".data]).1 ≠
      Except.error ServerError.securityError := by
  exact ⟨by decide, by decide⟩

/-- C7, amended.  When `set_output_location_file` is called with a directory
path that passes path validation and exists (or can be created) but for
which the process lacks write permission, the operation signals
`FileOperationError` (not `SecurityError`). -/
theorem C7_amended_write_denial_is_file_operation_error (w : World) (p : FsPath)
    (hval : validate_path_security p none = Except.ok (resolveComps p))
    (hcreate : resolveComps p ∈ w.dirs ∨ w.mkdirOk (resolveComps p) = true)
    (hacc : w.accessW (resolveComps p) = false) :
    (set_output_location_file w p).1 = Except.error ServerError.fileOperationError := by
  simp only [set_output_location_file, hval]
  by_cases hmem : resolveComps p ∈ w.dirs
  · simp [hmem, hacc]
  · rcases hcreate with hmem2 | hmk
    · exact absurd hmem2 hmem
    · simp [hmem, hmk, hacc]

/-- C7, witness: the amended theorem applied at `/newdir` in the
no-write-permission world. -/
theorem C7_witness :
    validate_path_security ["newdir".data] none = Except.ok (resolveComps ["newdir".data])
    ∧ wNoW.mkdirOk (resolveComps ["newdir".data]) = true
    ∧ wNoW.accessW (resolveComps ["newdir".data]) = false
    ∧ (set_output_location_file wNoW ["newdir".data]).1 =
      Except.error ServerError.fileOperationError :=
  ⟨by decide, by decide, by decide,
   C7_amended_write_denial_is_file_operation_error wNoW ["newdir".data]
     (by decide) (Or.inr (by decide)) (by decide)⟩

/-! ## C8: `ensure_output_directory` -/

lemma self_mem_prefixesOf (p : FsPath) : p ∈ prefixesOf p := by
  induction p with
  | nil => simp [prefixesOf]
  | cons c cs ih =>
    simp only [prefixesOf, List.mem_cons]
    exact Or.inr (List.mem_map.mpr ⟨cs, ih, rfl⟩)

/-- C8.  If no output root has ever been explicitly set,
`ensure_output_directory` targets the fixed subdirectory
`mcp_graphviz_output` under the platform temporary-files location: it
records that directory in the process state, returns it (creating it, with
its parents, if absent) when creation is possible, signals
`FileOperationError` when creation fails, and a repeated call returns the
same directory with the state unchanged. -/
theorem C8_ensure_output_directory_default (w : World) (h : w.outputDirectory = none) :
    ((ensure_output_directory w).2.outputDirectory = some (defaultOutputDir w))
    ∧ ((defaultOutputDir w ∈ w.dirs ∨ w.mkdirOk (defaultOutputDir w) = true) →
        (ensure_output_directory w).1 = Except.ok (defaultOutputDir w)
        ∧ defaultOutputDir w ∈ (ensure_output_directory w).2.dirs)
    ∧ (defaultOutputDir w ∉ w.dirs → w.mkdirOk (defaultOutputDir w) = false →
        (ensure_output_directory w).1 = Except.error ServerError.fileOperationError)
    ∧ (∀ d, (ensure_output_directory w).1 = Except.ok d →
        ensure_output_directory (ensure_output_directory w).2 =
          (Except.ok d, (ensure_output_directory w).2)) := by
  have houtdir : (ensure_output_directory w).2.outputDirectory = some (defaultOutputDir w) := by
    simp only [ensure_output_directory, h, Option.getD_none]
    split
    · rfl
    · split
      · rfl
      · rfl
  refine ⟨houtdir, ?_, ?_, ?_⟩
  · intro hc
    by_cases hmem : defaultOutputDir w ∈ w.dirs
    · constructor
      · simp [ensure_output_directory, h, hmem]
      · simp [ensure_output_directory, h, hmem]
    · have hmk : w.mkdirOk (defaultOutputDir w) = true := by
        rcases hc with hc | hc
        · exact absurd hc hmem
        · exact hc
      constructor
      · simp [ensure_output_directory, h, hmem, hmk]
      · simp [ensure_output_directory, h, hmem, hmk, self_mem_prefixesOf]
  · intro hmem hmk
    simp [ensure_output_directory, h, hmem, hmk]
  · intro d hd
    by_cases hmem : defaultOutputDir w ∈ w.dirs
    · have hd2 : d = defaultOutputDir w := by
        simp [ensure_output_directory, h, hmem] at hd
        exact hd.symm
      subst hd2
      simp [ensure_output_directory, h, hmem]
    · by_cases hmk : w.mkdirOk (defaultOutputDir w) = true
      · have hd2 : d = defaultOutputDir w := by
          simp [ensure_output_directory, h, hmem, hmk] at hd
          exact hd.symm
        subst hd2
        have hmem2 : defaultOutputDir w ∈ prefixesOf (defaultOutputDir w) ++ w.dirs :=
          List.mem_append_left _ (self_mem_prefixesOf _)
        simp [ensure_output_directory, h, hmem, hmk, hmem2]
      · simp [ensure_output_directory, h, hmem, hmk] at hd

/-- C8, witness: in the default world (no root ever set) the call returns
`<tmp>/mcp_graphviz_output`. -/
theorem C8_witness :
    w0.outputDirectory = none
    ∧ (ensure_output_directory w0).1 = Except.ok (defaultOutputDir w0) :=
  ⟨rfl, ((C8_ensure_output_directory_default w0 rfl).2.1 (Or.inr (by decide))).1⟩

/-! ## C10: syntax rejection leaves the state unchanged -/

/-- C10.  For every input that `validate_dot_content` rejects (structurally
or through the renderer verdict), both `generate_dot_file` and
`generate_png` raise `DOTSyntaxError` and return the world unchanged: no
directory is created and no file is written or overwritten. -/
theorem C10_syntax_rejection_changes_nothing (w : World) (d fn : List Char)
    (width height : Int) (h : validate_dot_content w.renderOk d ≠ Except.ok ()) :
    generate_dot_file w d fn = (Except.error ServerError.dotSyntaxError, w)
    ∧ generate_png w d fn width height = (Except.error ServerError.dotSyntaxError, w) := by
  rcases hv : validate_dot_content w.renderOk d with e | u
  · have he : e = ServerError.dotSyntaxError := validate_dot_content_error _ _ _ hv
    subst he
    constructor
    · simp [generate_dot_file, hv]
    · simp [generate_png, generate_pngCore, hv, Except.map]
  · cases u
    exact absurd hv h

/-- C10, witness: `"not a graph"` is rejected and both operations leave the
default world untouched. -/
theorem C10_witness :
    validate_dot_content w0.renderOk exNotAGraph ≠ Except.ok ()
    ∧ generate_dot_file w0 exNotAGraph exT1 = (Except.error ServerError.dotSyntaxError, w0)
    ∧ generate_png w0 exNotAGraph exT1 500 500 =
      (Except.error ServerError.dotSyntaxError, w0) :=
  ⟨by decide,
   (C10_syntax_rejection_changes_nothing w0 exNotAGraph exT1 500 500 (by decide)).1,
   (C10_syntax_rejection_changes_nothing w0 exNotAGraph exT1 500 500 (by decide)).2⟩

/-! ## C5: dimension validation of `generate_png` -/

lemma errOf_map {α β : Type} (f : α → β) (x : Except ServerError α) :
    errOf (x.map f) = errOf x := by
  cases x <;> rfl

/-- The tail of `generate_png` after the dimension checks never reports a
`ValueError`. -/
lemma pngAfterDims_no_valueError (w : World) (d fn : List Char) :
    errOf (pngAfterDims w d fn).1 ≠ some ServerError.valueError := by
  simp only [pngAfterDims]
  rcases he : ensure_output_directory w with ⟨r1, w1⟩
  rcases r1 with e1 | outDir
  · have h3 : e1 = ServerError.fileOperationError :=
      ensure_output_directory_error w e1 (by rw [he])
    subst h3
    simp [errOf]
  · rcases hv : validate_path_security (outDir ++ [joinedName fn pngExt]) (some outDir) with
      e2 | vp
    · have h4 : e2 = ServerError.securityError := validate_path_security_error _ _ _ hv
      subst h4
      simp [hv, errOf]
    · by_cases hr : w1.renderFileOk d = true
      · simp [hv, hr, errOf]
      · simp [hv, hr, errOf]

/-- C5.  For every description accepted by `validate_dot_content`,
`generate_png` signals the parameter-validation error (`ValueError`,
distinct from `SecurityError`, `DOTSyntaxError` and `FileOperationError` in
the `ServerError` taxonomy) if and only if the requested width or height is
not positive or exceeds 10000. -/
theorem C5_generate_png_dimension_validation (w : World) (d fn : List Char)
    (width height : Int) (hok : validate_dot_content w.renderOk d = Except.ok ()) :
    errOf (generate_png w d fn width height).1 = some ServerError.valueError ↔
      ¬ dimsOk width height := by
  have hpng : errOf (generate_png w d fn width height).1 =
      errOf (generate_pngCore w d fn width height).1 := by
    simp only [generate_png]
    exact errOf_map _ _
  rw [hpng]
  by_cases h1 : width ≤ 0 ∨ height ≤ 0
  · have hcore : generate_pngCore w d fn width height =
        (Except.error ServerError.valueError, w) := by
      simp [generate_pngCore, hok, h1]
    rw [hcore]
    simp only [errOf, true_iff, iff_true]
    unfold dimsOk
    omega
  · by_cases h2 : 10000 < width ∨ 10000 < height
    · have hcore : generate_pngCore w d fn width height =
          (Except.error ServerError.valueError, w) := by
        simp [generate_pngCore, hok, h1, h2]
      rw [hcore]
      simp only [errOf, true_iff, iff_true]
      unfold dimsOk
      omega
    · have hdims : dimsOk width height := by
        unfold dimsOk
        omega
      have hcore : generate_pngCore w d fn width height = pngAfterDims w d fn := by
        simp [generate_pngCore, hok, h1, h2]
      rw [hcore]
      constructor
      · intro hcon
        exact absurd hcon (pngAfterDims_no_valueError w d fn)
      · intro hc
        exact absurd hdims hc

/-- C5, witness: with the accepted description `digraph G \x7b a -> b; \x7d`,
`width = 0` and `height = 20000` each produce the `ValueError` kind. -/
theorem C5_witness :
    validate_dot_content w0.renderOk exGood = Except.ok ()
    ∧ errOf (generate_png w0 exGood exT1 0 500).1 = some ServerError.valueError
    ∧ errOf (generate_png w0 exGood exT1 500 20000).1 = some ServerError.valueError :=
  ⟨by decide,
   (C5_generate_png_dimension_validation w0 exGood exT1 0 500 (by decide)).mpr (by decide),
   (C5_generate_png_dimension_validation w0 exGood exT1 500 20000 (by decide)).mpr
     (by decide)⟩

/-! ## C9: the requested dimensions do not influence the rendering -/

/-- C9.  For every description and every two dimension pairs that pass the
dimension validation, `generate_png` performs the identical renderer
invocation and produces the identical final state (in particular identical
output-file content): the two runs of the core computation are equal, and
the full operations differ at most in the confirmation message, which
reports the same created path with the respective requested dimensions.
The derived DPI value (`derivedDpi`) is computed but never passed to the
renderer. -/
theorem C9_dimensions_do_not_influence_rendering (w : World) (d fn : List Char)
    (width1 height1 width2 height2 : Int)
    (hd1 : dimsOk width1 height1) (hd2 : dimsOk width2 height2) :
    generate_pngCore w d fn width1 height1 = generate_pngCore w d fn width2 height2
    ∧ (generate_png w d fn width1 height1).2 = (generate_png w d fn width2 height2).2
    ∧ errOf (generate_png w d fn width1 height1).1 =
        errOf (generate_png w d fn width2 height2).1
    ∧ (∀ p, (generate_pngCore w d fn width1 height1).1 = Except.ok p →
        (generate_png w d fn width1 height1).1 = Except.ok (pngSuccessMsg p width1 height1)
        ∧ (generate_png w d fn width2 height2).1 =
          Except.ok (pngSuccessMsg p width2 height2)) := by
  obtain ⟨ha1, hb1, hc1, he1⟩ := hd1
  obtain ⟨ha2, hb2, hc2, he2⟩ := hd2
  have hA1 : ¬ (width1 ≤ 0 ∨ height1 ≤ 0) := by omega
  have hA2 : ¬ (10000 < width1 ∨ 10000 < height1) := by omega
  have hB1 : ¬ (width2 ≤ 0 ∨ height2 ≤ 0) := by omega
  have hB2 : ¬ (10000 < width2 ∨ 10000 < height2) := by omega
  have hcore : generate_pngCore w d fn width1 height1 =
      generate_pngCore w d fn width2 height2 := by
    rcases hv : validate_dot_content w.renderOk d with e | u
    · simp [generate_pngCore, hv]
    · cases u
      simp [generate_pngCore, hv, hA1, hA2, hB1, hB2]
  refine ⟨hcore, ?_, ?_, ?_⟩
  · simp only [generate_png, hcore]
  · simp only [generate_png, errOf_map, hcore]
  · intro p hp
    have hp2 : (generate_pngCore w d fn width2 height2).1 = Except.ok p := hcore ▸ hp
    constructor
    · simp only [generate_png]
      rw [hp]
      rfl
    · simp only [generate_png]
      rw [hp2]
      rfl

/-- C9, witness: two concrete valid dimension pairs give the same core run
on the default world. -/
theorem C9_witness :
    dimsOk 500 500 ∧ dimsOk 72 9999
    ∧ generate_pngCore w0 exGood exT1 500 500 = generate_pngCore w0 exGood exT1 72 9999 :=
  ⟨by decide, by decide,
   (C9_dimensions_do_not_influence_rendering w0 exGood exT1 500 500 72 9999
     (by decide) (by decide)).1⟩

/-- C3, counterexample.  The claim says
`generate_dot_file("digraph\x7ba->b\x7d", "t1")` succeeds; in fact
`DOT_GRAPH_PATTERN` requires at least one whitespace character after the
`graph`/`digraph` keyword (`\s+`), so the call raises `DOTSyntaxError`. -/
theorem C3_counterexample :
    (generate_dot_file w0 exC3Bad exT1).1 = Except.error ServerError.dotSyntaxError := by
  decide

/-- C3, amended.  `generate_dot_file("digraph \x7ba->b\x7d", "t1")` (with the
whitespace the shape regex demands) succeeds, writes the description
verbatim to the resolved path `<tmp>/mcp_graphviz_output/t1.dot`, and
reading that path back returns exactly the written string — byte-exact, and
overwriting whatever file content existed at that path before (the prior
file table is arbitrary). -/
theorem C3_amended_roundtrip (prior : List (FsPath × List Char)) :
    (generate_dot_file { w0 with files := prior } exC3Good exT1).1 =
      Except.ok (dotSuccessMsg c3Path)
    ∧ readFile (generate_dot_file { w0 with files := prior } exC3Good exT1).2 c3Path =
      some exC3Good := by
  constructor
  · rfl
  · rfl

/-- C2, counterexample.  `"digraph\x7ba\x7d"` (trimmed, balanced braces) is of
the claim's shape — `digraph`, no identifier, brace-delimited body to the
end — but `validate_dot_content` rejects it, because `DOT_GRAPH_PATTERN`
demands at least one whitespace character after the keyword; so the claimed
"accepts exactly the inputs of the shape" equivalence fails at this
input. -/
theorem C2_counterexample :
    ¬ (validate_dot_content alwaysOk exNoWsKw = Except.ok () ↔
       (ClaimShapeDecomp (pyStrip exNoWsKw)
        ∧ exNoWsKw.count '{' = exNoWsKw.count '}')) := by
  intro h
  have hshape : ClaimShapeDecomp (pyStrip exNoWsKw) := by
    refine ⟨[], ("digraph".data), [], [], [], ("a".data), by rfl,
      Or.inl rfl, Or.inr (by rfl), ?_, ?_, ?_⟩
    · intro c hc; cases hc
    · intro c hc; cases hc
    · intro c hc; cases hc
  have h2 := h.mpr ⟨hshape, rfl⟩
  exact absurd h2 (by decide)

/-! ### Character-class facts -/

lemma isWs_elim (c : Char) (h : isWsB c = true) :
    c = ' ' ∨ c = '\t' ∨ c = '\n' ∨ c = '\r' ∨ c = '\x0b' ∨ c = '\x0c' := by
  simp only [isWsB, Bool.or_eq_true, beq_iff_eq] at h
  tauto

lemma ws_not_word (c : Char) (h : isWsB c = true) : isWordB c = false := by
  rcases isWs_elim c h with h | h | h | h | h | h <;> subst h <;> decide

lemma word_not_ws (c : Char) (h : isWordB c = true) : isWsB c = false := by
  cases hw : isWsB c
  · rfl
  · rw [ws_not_word c hw] at h
    cases h

lemma ws_lower_self (c : Char) (h : isWsB c = true) : lowerC c = c := by
  rcases isWs_elim c h with h | h | h | h | h | h <;> subst h <;> decide

lemma lower_eq_imp_not_ws (c x : Char) (h : lowerC c = x) (hx : isWsB x = false) :
    isWsB c = false := by
  cases hw : isWsB c
  · rfl
  · rw [ws_lower_self c hw] at h
    subst h
    rw [hw] at hx
    cases hx

/-! ### `stripCaseFold` facts -/

lemma stripCaseFold_some_mp (pat : List Char) : ∀ (s r : List Char),
    stripCaseFold pat s = some r → ∃ t, s = t ++ r ∧ lowersTo t pat := by
  induction pat with
  | nil =>
    intro s r h
    refine ⟨[], ?_, rfl⟩
    simpa using Option.some.inj h
  | cons p ps ih =>
    intro s r h
    cases s with
    | nil => cases h
    | cons c cs =>
      by_cases hc : lowerC c = p
      · have h2 : stripCaseFold ps cs = some r := by
          simpa [stripCaseFold, hc] using h
        obtain ⟨t, ht, hl⟩ := ih cs r h2
        refine ⟨c :: t, by simp [ht], ?_⟩
        show (c :: t).map lowerC = p :: ps
        rw [List.map_cons, hc]
        rw [show t.map lowerC = ps from hl]
      · rw [show stripCaseFold (p :: ps) (c :: cs) = none by simp [stripCaseFold, hc]] at h
        cases h

lemma stripCaseFold_some_mpr (pat : List Char) : ∀ (t s : List Char),
    lowersTo t pat → stripCaseFold pat (t ++ s) = some s := by
  induction pat with
  | nil =>
    intro t s ht
    have h0 : t = [] := by
      cases t with
      | nil => rfl
      | cons c cs => simp [lowersTo] at ht
    subst h0
    rfl
  | cons p ps ih =>
    intro t s ht
    cases t with
    | nil => simp [lowersTo] at ht
    | cons c cs =>
      have ht2 : lowerC c :: cs.map lowerC = p :: ps := by
        simpa [lowersTo] using ht
      have h1 : lowerC c = p := by injection ht2
      have h2 : lowersTo cs ps := by
        show cs.map lowerC = ps
        injection ht2 with _ h2
      show stripCaseFold (p :: ps) (c :: (cs ++ s)) = some s
      simp [stripCaseFold, h1, ih cs s h2]

lemma stripCaseFold_cons_ne (p0 : Char) (ps : List Char) (c : Char) (cs : List Char)
    (h : ¬ lowerC c = p0) : stripCaseFold (p0 :: ps) (c :: cs) = none := by
  simp [stripCaseFold, h]

lemma strip_head_lower (p0 : Char) (ps : List Char) (c : Char) (cs r : List Char)
    (h : stripCaseFold (p0 :: ps) (c :: cs) = some r) : lowerC c = p0 := by
  by_cases hc : lowerC c = p0
  · exact hc
  · rw [stripCaseFold_cons_ne p0 ps c cs hc] at h
    cases h

lemma lowersTo_cons (t : List Char) (p0 : Char) (ps : List Char)
    (h : lowersTo t (p0 :: ps)) : ∃ c cs, t = c :: cs ∧ lowerC c = p0 ∧ lowersTo cs ps := by
  cases t with
  | nil => simp [lowersTo] at h
  | cons c cs =>
    have h2 : lowerC c :: cs.map lowerC = p0 :: ps := by simpa [lowersTo] using h
    have h3 : lowerC c = p0 := by injection h2
    have h4 : lowersTo cs ps := by
      show cs.map lowerC = ps
      injection h2 with _ h4
    exact ⟨c, cs, rfl, h3, h4⟩

/-! ### The `\s+\w*\s*\{.*\}\s*$` tail -/

/-- A trailing-character property transfers from a string to any of its
suffixes. -/
lemma lastNotWs_suffix (s pre r : List Char) (h : s = pre ++ r)
    (hlast : ∀ c t, s.reverse = c :: t → isWsB c = false) :
    ∀ c t, r.reverse = c :: t → isWsB c = false := by
  intro c t hr
  apply hlast c (t ++ pre.reverse)
  rw [h, List.reverse_append, hr]
  rfl

/-- Pushing `dropWhile` through an all-`p` prefix onto a head that fails `p`. -/
lemma dropWhile_all_append_head (p : Char → Bool) (a b : List Char)
    (ha : ∀ c ∈ a, p c = true) (hb : ∀ c t, b = c :: t → p c = false) :
    List.dropWhile p (a ++ b) = b := by
  rw [dropWhile_all_append p a b ha]
  cases b with
  | nil => rfl
  | cons c t => exact dropWhile_cons_neg p c t (hb c t rfl)

/-- Forward decomposition of the `afterKw` matcher: a successful match of
`\s+\w*\s*\{.*\}\s*$` on a string whose last character is not whitespace
yields the run decomposition with a mandatory leading whitespace run. -/
lemma afterKw_decomp_mp (r : List Char) (hr : afterKw r = true)
    (hlastr : ∀ c t, r.reverse = c :: t → isWsB c = false) :
    ∃ ws1 idp ws2 body, r = ws1 ++ idp ++ ws2 ++ ('{' :: (body ++ ['}']))
      ∧ ws1 ≠ [] ∧ wsRun ws1 ∧ wordRun idp ∧ wsRun ws2 := by
  cases r with
  | nil => cases hr
  | cons c rest =>
    rw [afterKw, Bool.and_eq_true] at hr
    obtain ⟨hc, hbody⟩ := hr
    obtain ⟨wA, hwA, hallA⟩ := dropWhile_decomp isWsB rest
    obtain ⟨idp, hidp, hallI⟩ := dropWhile_decomp isWordB (rest.dropWhile isWsB)
    obtain ⟨wB, hwB, hallB⟩ :=
      dropWhile_decomp isWsB ((rest.dropWhile isWsB).dropWhile isWordB)
    rcases hr3 : ((rest.dropWhile isWsB).dropWhile isWordB).dropWhile isWsB with _ | ⟨c3, t⟩
    · rw [hr3] at hbody
      cases hbody
    · rw [hr3] at hbody
      rw [matchBody, Bool.and_eq_true, beq_iff_eq] at hbody
      obtain ⟨hc3, hclose⟩ := hbody
      subst hc3
      rw [hr3] at hwB
      have hreq : (c :: rest : List Char) =
          (c :: wA) ++ idp ++ wB ++ ('{' :: t) := by
        conv_lhs => rw [hwA, hidp, hwB]
        simp
      rcases hdt : t.reverse.dropWhile isWsB with _ | ⟨cc, u⟩
      · rw [lastNonWsIsClose, hdt] at hclose
        cases hclose
      · have hcc : cc = '}' := by
          rw [lastNonWsIsClose, hdt] at hclose
          exact eq_of_beq hclose
        subst hcc
        obtain ⟨wC, hwC, hallC⟩ := dropWhile_decomp isWsB t.reverse
        rw [hdt] at hwC
        have hseq : (c :: rest : List Char) = ((c :: wA) ++ idp ++ wB ++ ['{']) ++ t := by
          simp [hreq]
        have hrevlast : ∀ c0 t0, t.reverse = c0 :: t0 → isWsB c0 = false :=
          lastNotWs_suffix (c :: rest) ((c :: wA) ++ idp ++ wB ++ ['{']) t hseq hlastr
        have hwCnil : wC = [] := by
          cases wC with
          | nil => rfl
          | cons c0 w' =>
            have h0 : t.reverse = c0 :: (w' ++ '}' :: u) := by simpa using hwC
            have h1 := hrevlast c0 _ h0
            rw [hallC c0 (List.mem_cons_self c0 w')] at h1
            cases h1
        rw [hwCnil, List.nil_append] at hwC
        have ht : t = u.reverse ++ ['}'] := by
          have h2 := congrArg List.reverse hwC
          simpa using h2
        refine ⟨c :: wA, idp, wB, u.reverse, ?_, List.cons_ne_nil c wA, ?_, hallI, hallB⟩
        · rw [hreq, ht]
        · intro c0 hc0
          rcases List.mem_cons.mp hc0 with h0 | h0
          · rw [h0]; exact hc
          · exact hallA c0 h0

/-- Backward direction: every string of the amended run shape is accepted by
the `afterKw` matcher (stated with right-nested appends so that the list is
cons-headed). -/
lemma afterKw_decomp_mpr (ws1 idp ws2 body : List Char)
    (hws1ne : ws1 ≠ []) (hws1 : wsRun ws1) (hidp : wordRun idp) (hws2 : wsRun ws2) :
    afterKw (ws1 ++ (idp ++ (ws2 ++ ('{' :: (body ++ ['}']))))) = true := by
  cases ws1 with
  | nil => exact absurd rfl hws1ne
  | cons e0 ws1' =>
    have he0 : isWsB e0 = true := hws1 e0 (List.mem_cons_self _ _)
    have hws1' : ∀ c ∈ ws1', isWsB c = true :=
      fun c hc => hws1 c (List.mem_cons_of_mem e0 hc)
    rw [List.cons_append]
    simp only [afterKw, Bool.and_eq_true]
    refine ⟨he0, ?_⟩
    have hbrace : ∀ (c0 : Char) (t0 : List Char),
        ('{' :: (body ++ ['}']) : List Char) = c0 :: t0 → isWsB c0 = false := by
      intro c0 t0 h0
      have h5 : c0 = '{' := by injection h0 with h5 _; exact h5.symm
      subst h5
      decide
    have h2 : List.dropWhile isWsB (ws2 ++ ('{' :: (body ++ ['}']))) =
        '{' :: (body ++ ['}']) :=
      dropWhile_all_append_head isWsB ws2 _ hws2 hbrace
    have hchain :
        List.dropWhile isWsB
          (List.dropWhile isWordB
            (List.dropWhile isWsB (ws1' ++ (idp ++ (ws2 ++ ('{' :: (body ++ ['}'])))))))
        = '{' :: (body ++ ['}']) := by
      cases idp with
      | nil =>
        have hstep1 : List.dropWhile isWsB
            (ws1' ++ (([] : List Char) ++ (ws2 ++ ('{' :: (body ++ ['}']))))) =
            '{' :: (body ++ ['}']) := by
          simp only [List.nil_append]
          rw [dropWhile_all_append isWsB ws1' _ hws1']
          exact h2
        rw [hstep1]
        rw [dropWhile_cons_neg isWordB '{' _ (by decide)]
        rw [dropWhile_cons_neg isWsB '{' _ (by decide)]
      | cons c1 idp' =>
        have hc1 : isWsB c1 = false := word_not_ws c1 (hidp c1 (List.mem_cons_self _ _))
        have hstep1 : List.dropWhile isWsB
            (ws1' ++ ((c1 :: idp') ++ (ws2 ++ ('{' :: (body ++ ['}']))))) =
            (c1 :: idp') ++ (ws2 ++ ('{' :: (body ++ ['}']))) := by
          apply dropWhile_all_append_head isWsB ws1' _ hws1'
          intro c0 t0 h0
          have h5 : c0 = c1 := by
            rw [List.cons_append] at h0
            injection h0 with h5 _
            exact h5.symm
          subst h5
          exact hc1
        have hstep2 : List.dropWhile isWordB
            ((c1 :: idp') ++ (ws2 ++ ('{' :: (body ++ ['}'])))) =
            ws2 ++ ('{' :: (body ++ ['}'])) := by
          apply dropWhile_all_append_head isWordB (c1 :: idp') _ hidp
          intro c0 t0 h0
          cases ws2 with
          | nil =>
            simp only [List.nil_append] at h0
            have h5 : c0 = '{' := by injection h0 with h5 _; exact h5.symm
            subst h5
            decide
          | cons c2 ws2' =>
            have h5 : c0 = c2 := by
              rw [List.cons_append] at h0
              injection h0 with h5 _
              exact h5.symm
            rw [h5]
            exact ws_not_word c2 (hws2 c2 (List.mem_cons_self _ _))
        rw [hstep1, hstep2, h2]
    rw [hchain]
    rw [matchBody, Bool.and_eq_true]
    constructor
    · decide
    · rw [lastNonWsIsClose]
      have h4 : (body ++ ['}']).reverse = '}' :: body.reverse := by simp
      rw [h4, dropWhile_cons_neg isWsB '}' body.reverse (by decide)]
      rfl

/-! ### The `(graph|digraph)` keyword layer -/

lemma graphPat_cons : graphPat = 'g' :: ("raph".data) := rfl

lemma digraphPat_cons : digraphPat = 'd' :: ("igraph".data) := rfl

lemma strictPat_cons : strictPat = 's' :: ("trict".data) := rfl

/-- The head of a keyword that spells `graph` or `digraph` is not
whitespace. -/
lemma kw_head_not_ws (kw rest2 : List Char)
    (hkw : lowersTo kw graphPat ∨ lowersTo kw digraphPat) :
    ∀ c t, kw ++ rest2 = c :: t → isWsB c = false := by
  intro c t h0
  rcases hkw with hk | hk
  · rw [graphPat_cons] at hk
    obtain ⟨k0, krest, hkc, hk0, _⟩ := lowersTo_cons kw 'g' _ hk
    rw [hkc, List.cons_append] at h0
    have h5 : c = k0 := by injection h0 with h5 _; exact h5.symm
    rw [h5]
    exact lower_eq_imp_not_ws k0 'g' hk0 (by decide)
  · rw [digraphPat_cons] at hk
    obtain ⟨k0, krest, hkc, hk0, _⟩ := lowersTo_cons kw 'd' _ hk
    rw [hkc, List.cons_append] at h0
    have h5 : c = k0 := by injection h0 with h5 _; exact h5.symm
    rw [h5]
    exact lower_eq_imp_not_ws k0 'd' hk0 (by decide)

/-- If a string starts with a character that lowers to `s`, the keyword
matcher fails on it (neither `graph` nor `digraph` can start there). -/
lemma kwMatch_false_of_s_head (s : List Char) (c : Char) (cs : List Char)
    (hs : s = c :: cs) (hc : lowerC c = 's') : kwMatch s = false := by
  subst hs
  rw [kwMatch, graphPat_cons, digraphPat_cons]
  rw [stripCaseFold_cons_ne 'g' _ c cs (by rw [hc]; decide)]
  rw [stripCaseFold_cons_ne 'd' _ c cs (by rw [hc]; decide)]

/-- Forward decomposition of `kwMatch`: on success, the string splits into a
case-variant of `graph`/`digraph` followed by an `afterKw` tail, and the
tail decomposes into the amended run shape when the last character of the
string is not whitespace. -/
lemma kwMatch_decomp_mp (rq : List Char) (hm : kwMatch rq = true)
    (hlastq : ∀ c t, rq.reverse = c :: t → isWsB c = false) :
    ∃ kw ws1 idp ws2 body,
      rq = kw ++ (ws1 ++ idp ++ ws2 ++ ('{' :: (body ++ ['}'])))
      ∧ (lowersTo kw graphPat ∨ lowersTo kw digraphPat)
      ∧ ws1 ≠ [] ∧ wsRun ws1 ∧ wordRun idp ∧ wsRun ws2 := by
  rw [kwMatch] at hm
  rcases hg : stripCaseFold graphPat rq with _ | rest
  · rw [hg] at hm
    rcases hd : stripCaseFold digraphPat rq with _ | rest
    · rw [hd] at hm
      exact Bool.noConfusion hm
    · rw [hd] at hm
      obtain ⟨t, ht, hl⟩ := stripCaseFold_some_mp digraphPat rq rest hd
      have hlrest : ∀ c0 t0, rest.reverse = c0 :: t0 → isWsB c0 = false :=
        lastNotWs_suffix rq t rest ht hlastq
      obtain ⟨ws1, idp, ws2, body, hdec, hne, hws1, hidp, hws2⟩ :=
        afterKw_decomp_mp rest hm hlrest
      exact ⟨t, ws1, idp, ws2, body, by rw [ht, hdec], Or.inr hl, hne, hws1, hidp, hws2⟩
  · rw [hg] at hm
    obtain ⟨t, ht, hl⟩ := stripCaseFold_some_mp graphPat rq rest hg
    have hlrest : ∀ c0 t0, rest.reverse = c0 :: t0 → isWsB c0 = false :=
      lastNotWs_suffix rq t rest ht hlastq
    obtain ⟨ws1, idp, ws2, body, hdec, hne, hws1, hidp, hws2⟩ :=
      afterKw_decomp_mp rest hm hlrest
    exact ⟨t, ws1, idp, ws2, body, by rw [ht, hdec], Or.inl hl, hne, hws1, hidp, hws2⟩

/-- Backward direction of the keyword layer. -/
lemma kwMatch_decomp_mpr (kw ws1 idp ws2 body : List Char)
    (hkw : lowersTo kw graphPat ∨ lowersTo kw digraphPat)
    (hws1ne : ws1 ≠ []) (hws1 : wsRun ws1) (hidp : wordRun idp) (hws2 : wsRun ws2) :
    kwMatch (kw ++ (ws1 ++ (idp ++ (ws2 ++ ('{' :: (body ++ ['}'])))))) = true := by
  rcases hkw with hk | hk
  · have h1 : stripCaseFold graphPat
        (kw ++ (ws1 ++ (idp ++ (ws2 ++ ('{' :: (body ++ ['}'])))))) =
        some (ws1 ++ (idp ++ (ws2 ++ ('{' :: (body ++ ['}']))))) :=
      stripCaseFold_some_mpr graphPat kw _ hk
    rw [kwMatch, h1]
    exact afterKw_decomp_mpr ws1 idp ws2 body hws1ne hws1 hidp hws2
  · have h1 : stripCaseFold graphPat
        (kw ++ (ws1 ++ (idp ++ (ws2 ++ ('{' :: (body ++ ['}'])))))) = none := by
      rw [digraphPat_cons] at hk
      obtain ⟨k0, krest, hkc, hk0, _⟩ := lowersTo_cons kw 'd' _ hk
      rw [hkc, List.cons_append, graphPat_cons]
      exact stripCaseFold_cons_ne 'g' _ k0 _ (by rw [hk0]; decide)
    have h2 : stripCaseFold digraphPat
        (kw ++ (ws1 ++ (idp ++ (ws2 ++ ('{' :: (body ++ ['}'])))))) =
        some (ws1 ++ (idp ++ (ws2 ++ ('{' :: (body ++ ['}']))))) :=
      stripCaseFold_some_mpr digraphPat kw _ hk
    rw [kwMatch, h1, h2]
    exact afterKw_decomp_mpr ws1 idp ws2 body hws1ne hws1 hidp hws2

/-! ### The full matcher against the amended shape -/

/-- If a keyword variant of `graph`/`digraph` starts the string, the
`strict` literal cannot match there. -/
lemma strict_none_of_kw (kw rest2 : List Char)
    (hkw : lowersTo kw graphPat ∨ lowersTo kw digraphPat) :
    stripCaseFold strictPat (kw ++ rest2) = none := by
  rcases hkw with hk | hk
  · rw [graphPat_cons] at hk
    obtain ⟨k0, krest, hkc, hk0, _⟩ := lowersTo_cons kw 'g' _ hk
    rw [hkc, List.cons_append, strictPat_cons]
    exact stripCaseFold_cons_ne 's' _ k0 _ (by rw [hk0]; decide)
  · rw [digraphPat_cons] at hk
    obtain ⟨k0, krest, hkc, hk0, _⟩ := lowersTo_cons kw 'd' _ hk
    rw [hkc, List.cons_append, strictPat_cons]
    exact stripCaseFold_cons_ne 's' _ k0 _ (by rw [hk0]; decide)

/-- The embedded `DOT_GRAPH_PATTERN` matcher accepts a string without
leading or trailing whitespace exactly when it decomposes into the amended
shape. -/
lemma matchShape_iff_amendShape (s : List Char)
    (hhead : ∀ c t, s = c :: t → isWsB c = false)
    (hlast : ∀ c t, s.reverse = c :: t → isWsB c = false) :
    matchShape s = true ↔ AmendShapeDecomp s := by
  have hdw : s.dropWhile isWsB = s := by
    cases s with
    | nil => rfl
    | cons c t => exact dropWhile_cons_neg isWsB c t (hhead c t rfl)
  constructor
  · intro hm
    rw [matchShape, hdw] at hm
    rcases hsf : stripCaseFold strictPat s with _ | r0
    · have hso : afterStrictOpt s = s := by simp [afterStrictOpt, hsf]
      rw [hso] at hm
      obtain ⟨kw, ws1, idp, ws2, body, hdec, hkw, hne, hws1, hidp, hws2⟩ :=
        kwMatch_decomp_mp s hm hlast
      refine ⟨[], kw, ws1, idp, ws2, body, ?_, Or.inl rfl, hkw, hne, hws1, hidp, hws2⟩
      simp [hdec]
    · rcases r0 with _ | ⟨c0, r0'⟩
      · obtain ⟨t, ht, hl⟩ := stripCaseFold_some_mp strictPat s [] hsf
        rw [List.append_nil] at ht
        rw [strictPat_cons] at hl
        obtain ⟨c, cs, hct, hc, _⟩ := lowersTo_cons t 's' _ hl
        have hso : afterStrictOpt s = s := by simp [afterStrictOpt, hsf]
        rw [hso] at hm
        rw [kwMatch_false_of_s_head s c cs (ht.trans hct) hc] at hm
        exact Bool.noConfusion hm
      · by_cases hws : isWsB c0 = true
        · obtain ⟨t, ht, hl⟩ := stripCaseFold_some_mp strictPat s (c0 :: r0') hsf
          have hso : afterStrictOpt s = r0'.dropWhile isWsB := by
            simp [afterStrictOpt, hsf, hws, List.dropWhile]
          obtain ⟨wS, hwS, hallS⟩ := dropWhile_decomp isWsB r0'
          rw [hso] at hm
          have hseq : s = (t ++ (c0 :: wS)) ++ (r0'.dropWhile isWsB) := by
            conv_lhs => rw [ht, hwS]
            simp
          have hlastk : ∀ c1 t1, (r0'.dropWhile isWsB).reverse = c1 :: t1 →
              isWsB c1 = false :=
            lastNotWs_suffix s (t ++ (c0 :: wS)) _ hseq hlast
          obtain ⟨kw, ws1, idp, ws2, body, hdec, hkw, hne, hws103, hidp, hws2⟩ :=
            kwMatch_decomp_mp _ hm hlastk
          refine ⟨t ++ (c0 :: wS), kw, ws1, idp, ws2, body, ?_, ?_,
            hkw, hne, hws103, hidp, hws2⟩
          · rw [hseq, hdec]
            simp
          · right
            refine ⟨t, c0 :: wS, rfl, hl, List.cons_ne_nil _ _, ?_⟩
            intro c1 hc1
            rcases List.mem_cons.mp hc1 with h1 | h1
            · rw [h1]; exact hws
            · exact hallS c1 h1
        · obtain ⟨t, ht, hl⟩ := stripCaseFold_some_mp strictPat s (c0 :: r0') hsf
          rw [strictPat_cons] at hl
          obtain ⟨c, cs, hct, hc, _⟩ := lowersTo_cons t 's' _ hl
          have hso : afterStrictOpt s = s := by simp [afterStrictOpt, hsf, hws]
          rw [hso] at hm
          have hs2 : s = c :: (cs ++ (c0 :: r0')) := by
            rw [ht, hct]
            simp
          rw [kwMatch_false_of_s_head s c _ hs2 hc] at hm
          exact Bool.noConfusion hm
  · rintro ⟨sp, kw, ws1, idp, ws2, body, heq, hsp, hkw, hws1ne, hws1, hidp, hws2⟩
    rw [matchShape, hdw]
    rcases hsp with hspn | ⟨st, ws0, hsp2, hst, hws0ne, hws0⟩
    · subst hspn
      have hs2 : s = kw ++ (ws1 ++ (idp ++ (ws2 ++ ('{' :: (body ++ ['}']))))) := by
        rw [heq]; simp
      have hsf : stripCaseFold strictPat s = none := by
        rw [hs2]
        exact strict_none_of_kw kw _ hkw
      have hso : afterStrictOpt s = s := by simp [afterStrictOpt, hsf]
      rw [hso, hs2]
      exact kwMatch_decomp_mpr kw ws1 idp ws2 body hkw hws1ne hws1 hidp hws2
    · cases ws0 with
      | nil => exact absurd rfl hws0ne
      | cons e0 ws0'' =>
        have he0 : isWsB e0 = true := hws0 e0 (List.mem_cons_self _ _)
        have hs3 : s = st ++ ((e0 :: ws0'') ++
            (kw ++ (ws1 ++ (idp ++ (ws2 ++ ('{' :: (body ++ ['}']))))))) := by
          rw [heq, hsp2]; simp
        have hsf : stripCaseFold strictPat s =
            some (e0 :: (ws0'' ++
              (kw ++ (ws1 ++ (idp ++ (ws2 ++ ('{' :: (body ++ ['}'])))))))) := by
          rw [hs3]
          exact stripCaseFold_some_mpr strictPat st _ hst
        have hdrop : List.dropWhile isWsB
            ((e0 :: ws0'') ++ (kw ++ (ws1 ++ (idp ++ (ws2 ++ ('{' :: (body ++ ['}'])))))))
            = kw ++ (ws1 ++ (idp ++ (ws2 ++ ('{' :: (body ++ ['}']))))) :=
          dropWhile_all_append_head isWsB (e0 :: ws0'') _ hws0 (kw_head_not_ws kw _ hkw)
        rw [List.cons_append] at hdrop
        have hso : afterStrictOpt s =
            kw ++ (ws1 ++ (idp ++ (ws2 ++ ('{' :: (body ++ ['}']))))) := by
          simp only [afterStrictOpt, hsf, he0, if_true]
          exact hdrop
        rw [hso]
        exact kwMatch_decomp_mpr kw ws1 idp ws2 body hkw hws1ne hws1 hidp hws2

/-! ### C2: the amended claim -/

lemma pyStrip_head_not_ws (d : List Char) :
    ∀ c t, pyStrip d = c :: t → isWsB c = false :=
  fun c t h => stripChars_head isWsB d c t h

lemma pyStrip_last_not_ws (d : List Char) :
    ∀ c t, (pyStrip d).reverse = c :: t → isWsB c = false := by
  intro c t h
  have h2 : pyStrip d = t.reverse ++ [c] := by
    have h3 := congrArg List.reverse h
    simpa using h3
  exact stripChars_last isWsB d c t.reverse h2

lemma amendShapeDecomp_ne_nil (hsh : AmendShapeDecomp []) : False := by
  obtain ⟨sp, kw, ws1, idp, ws2, body, heq, _⟩ := hsh
  have h2 := congrArg List.length heq
  simp [List.length_append] at h2
  omega

/-- C2, amended.  `validate_dot_content` accepts (as far as its structural
pre-checks go, i.e. with the external renderer verdict taken as accepting)
exactly the inputs whose trimmed form is: optional `strict` keyword followed
by at least one whitespace character, then `graph` or `digraph`
case-insensitively followed by at least one whitespace character, an
optional identifier, optional whitespace, then a brace-delimited body
extending to the end of the input — with balanced brace counts over the
whole input.  In particular it rejects the empty string, `"not a graph"`
and the unbalanced `"digraph \x7b "` with `DOTSyntaxError`, and accepts
`"digraph G \x7b a -> b; \x7d"`. -/
theorem C2_amended_structural_shape :
    (∀ d : List Char, validate_dot_content alwaysOk d = Except.ok () ↔
      (AmendShapeDecomp (pyStrip d) ∧ d.count '{' = d.count '}'))
    ∧ validate_dot_content alwaysOk [] = Except.error ServerError.dotSyntaxError
    ∧ validate_dot_content alwaysOk exNotAGraph = Except.error ServerError.dotSyntaxError
    ∧ validate_dot_content alwaysOk exUnbalanced = Except.error ServerError.dotSyntaxError
    ∧ validate_dot_content alwaysOk exGood = Except.ok () := by
  refine ⟨?_, by decide, by decide, by decide, by decide⟩
  intro d
  have hiff := matchShape_iff_amendShape (pyStrip d)
    (pyStrip_head_not_ws d) (pyStrip_last_not_ws d)
  rw [validate_dot_content]
  by_cases hnil : pyStrip d = []
  · rw [if_pos hnil]
    constructor
    · intro h; exact Except.noConfusion h
    · rintro ⟨hsh, _⟩
      rw [hnil] at hsh
      exact (amendShapeDecomp_ne_nil hsh).elim
  · rw [if_neg hnil]
    cases hms : matchShape (pyStrip d) with
    | false =>
      rw [if_pos rfl]
      constructor
      · intro h; exact Except.noConfusion h
      · rintro ⟨hsh, _⟩
        have h2 := hiff.mpr hsh
        rw [hms] at h2
        exact Bool.noConfusion h2
    | true =>
      rw [if_neg (fun h => Bool.noConfusion h)]
      by_cases hcnt : d.count '{' = d.count '}'
      · rw [if_neg (fun h => h hcnt)]
        exact ⟨fun _ => ⟨hiff.mp hms, hcnt⟩, fun _ => rfl⟩
      · rw [if_pos hcnt]
        constructor
        · intro h; exact Except.noConfusion h
        · rintro ⟨_, hc⟩
          exact absurd hc hcnt
